import Mathlib

/-!
# Verification of the yabs backup tool (`src/main.py`)

A shallow embedding of the backup lifecycle subsystem of the yabs
personal backup manager: retention classification
(`determine_backup_category`), archive creation (`backup`), integrity
digests (`generate_sha256`, backed by a full executable SHA-256 model),
the per-tier metadata ledger (`update_metadata`, `load_metadata`) and
listing (`list_backups`).  The filesystem is modelled as an explicit
value threaded through the operations; external library effects (the
tar/zstd streaming writer) appear as an explicit outcome parameter
recording the bytes they wrote and whether they raised.
-/

namespace Yabs

/-! ## SHA-256

Executable model of `hashlib.sha256(...).hexdigest()` over a byte
sequence, as used by `generate_sha256` in `src/main.py` (lines 182-187).
Words are `Nat` reduced modulo `2^32` explicitly. -/

/-- Truncate to a 32-bit word. -/
def w32 (n : Nat) : Nat := n % 4294967296

/-- Right rotation of a 32-bit word by `k` bits. -/
def rotr (k x : Nat) : Nat := w32 ((x >>> k) ||| (x <<< (32 - k)))

/-- Bitwise complement of a 32-bit word. -/
def w32not (x : Nat) : Nat := Nat.xor x 4294967295

/-- SHA-256 `Ch` function. -/
def shaCh (x y z : Nat) : Nat := Nat.xor (Nat.land x y) (Nat.land (w32not x) z)

/-- SHA-256 `Maj` function. -/
def shaMaj (x y z : Nat) : Nat :=
  Nat.xor (Nat.xor (Nat.land x y) (Nat.land x z)) (Nat.land y z)

/-- SHA-256 big sigma 0. -/
def bsig0 (x : Nat) : Nat := Nat.xor (Nat.xor (rotr 2 x) (rotr 13 x)) (rotr 22 x)

/-- SHA-256 big sigma 1. -/
def bsig1 (x : Nat) : Nat := Nat.xor (Nat.xor (rotr 6 x) (rotr 11 x)) (rotr 25 x)

/-- SHA-256 small sigma 0. -/
def ssig0 (x : Nat) : Nat := Nat.xor (Nat.xor (rotr 7 x) (rotr 18 x)) (x >>> 3)

/-- SHA-256 small sigma 1. -/
def ssig1 (x : Nat) : Nat := Nat.xor (Nat.xor (rotr 17 x) (rotr 19 x)) (x >>> 10)

/-- The 64 SHA-256 round constants. -/
def shaK : List Nat :=
  [1116352408, 1899447441, 3049323471, 3921009573, 961987163, 1508970993,
   2453635748, 2870763221, 3624381080, 310598401, 607225278, 1426881987,
   1925078388, 2162078206, 2614888103, 3248222580, 3835390401, 4022224774,
   264347078, 604807628, 770255983, 1249150122, 1555081692, 1996064986,
   2554220882, 2821834349, 2952996808, 3210313671, 3336571891, 3584528711,
   113926993, 338241895, 666307205, 773529912, 1294757372, 1396182291,
   1695183700, 1986661051, 2177026350, 2456956037, 2730485921, 2820302411,
   3259730800, 3345764771, 3516065817, 3600352804, 4094571909, 275423344,
   430227734, 506948616, 659060556, 883997877, 958139571, 1322822218,
   1537002063, 1747873779, 1955562222, 2024104815, 2227730452, 2361852424,
   2428436474, 2756734187, 3204031479, 3329325298]

/-- The SHA-256 initial hash value (eight 32-bit words). -/
def shaH0 : List Nat :=
  [1779033703, 3144134277, 1013904242, 2773480762,
   1359893119, 2600822924, 528734635, 1541459225]

/-- Big-endian bytes of `n`, width `k`. -/
def beBytes (k n : Nat) : List Nat :=
  (List.range k).map (fun i => (n >>> (8 * (k - 1 - i))) % 256)

/-- The 16 initial 32-bit message-schedule words of a 64-byte block
(big-endian). -/
def toWords16 (block : List Nat) : List Nat :=
  (List.range 16).map (fun i =>
    (block.getD (4 * i) 0) * 16777216 + (block.getD (4 * i + 1) 0) * 65536 +
      (block.getD (4 * i + 2) 0) * 256 + block.getD (4 * i + 3) 0)

/-- Extend a message schedule by `n` further words. -/
def extendW (w : List Nat) : Nat → List Nat
  | 0 => w
  | Nat.succ n =>
    let v := extendW w n
    let t := v.length
    v ++ [w32 (ssig1 (v.getD (t - 2) 0) + v.getD (t - 7) 0 +
               ssig0 (v.getD (t - 15) 0) + v.getD (t - 16) 0)]

/-- One SHA-256 round on the eight working registers. -/
def shaRound (st : Nat × Nat × Nat × Nat × Nat × Nat × Nat × Nat) (kw : Nat × Nat) :
    Nat × Nat × Nat × Nat × Nat × Nat × Nat × Nat :=
  let (a, b, c, d, e, f, g, h) := st
  let t1 := w32 (h + bsig1 e + shaCh e f g + kw.1 + kw.2)
  let t2 := w32 (bsig0 a + shaMaj a b c)
  (w32 (t1 + t2), a, b, c, w32 (d + t1), e, f, g)

/-- SHA-256 compression of one 64-byte block into the running hash. -/
def shaCompress (H : List Nat) (block : List Nat) : List Nat :=
  let ws := extendW (toWords16 block) 48
  let a0 := H.getD 0 0
  let b0 := H.getD 1 0
  let c0 := H.getD 2 0
  let d0 := H.getD 3 0
  let e0 := H.getD 4 0
  let f0 := H.getD 5 0
  let g0 := H.getD 6 0
  let h0 := H.getD 7 0
  let st := (shaK.zip ws).foldl shaRound (a0, b0, c0, d0, e0, f0, g0, h0)
  [w32 (a0 + st.1), w32 (b0 + st.2.1), w32 (c0 + st.2.2.1), w32 (d0 + st.2.2.2.1),
   w32 (e0 + st.2.2.2.2.1), w32 (f0 + st.2.2.2.2.2.1),
   w32 (g0 + st.2.2.2.2.2.2.1), w32 (h0 + st.2.2.2.2.2.2.2)]

/-- SHA-256 message padding: `0x80`, zeros, then the 64-bit big-endian
bit length, to a multiple of 64 bytes. -/
def padMessage (msg : List Nat) : List Nat :=
  let L := msg.length
  let z := (64 - ((L + 9) % 64)) % 64
  msg ++ [128] ++ List.replicate z 0 ++ beBytes 8 (8 * L)

/-- Split a byte list into successive 64-byte chunks. -/
def chunks64 (l : List Nat) : List (List Nat) :=
  if l = [] then [] else l.take 64 :: chunks64 (l.drop 64)
termination_by l.length
decreasing_by
  rename_i h
  have hl : 0 < l.length := List.length_pos.mpr h
  simp only [List.length_drop]
  omega

/-- SHA-256 of a byte sequence: eight 32-bit words. -/
def sha256 (msg : List Nat) : List Nat :=
  (chunks64 (padMessage msg)).foldl shaCompress shaH0

/-- The eight lowercase hex characters of a 32-bit word. -/
def hexWordChars (n : Nat) : List Char :=
  (List.range 8).map (fun i => Nat.digitChar ((n >>> (4 * (7 - i))) % 16))

/-- Lowercase hex digest of a byte sequence, as returned by Python's
`hashlib.sha256(...).hexdigest()`. -/
def sha256hex (msg : List Nat) : String :=
  ⟨((sha256 msg).map hexWordChars).flatten⟩

/-- File contents are modelled as strings; the byte sequence hashed by
`generate_sha256` is the sequence of their character codes. -/
def strBytes (s : String) : List Nat := s.data.map Char.toNat

/-! ## Text-file line structure

Python's `for line in f` iteration and the `metadata.txt` ledger format.
`linesOf` splits at every newline character (dropping the terminators);
iterating a file that ends in a newline additionally yields a final
empty line here, which every consumer in the program strips or skips,
so the models agree on all observable behaviour. -/

/-- Split a character sequence at newline characters. -/
def linesOf : List Char → List (List Char)
  | [] => [[]]
  | c :: rest =>
    if c = '\n' then [] :: linesOf rest
    else
      match linesOf rest with
      | [] => [[c]]
      | l :: ls => (c :: l) :: ls

/-- Rebuild a file body from newline-terminated lines. -/
def unlines (ls : List (List Char)) : List Char :=
  ls.foldr (fun l acc => l ++ '\n' :: acc) []

/-- Lines of a string. -/
def strLines (s : String) : List String := (linesOf s.data).map String.mk

/-- Python `str.strip()`: drop whitespace from both ends. -/
def pyStrip (s : String) : String :=
  ⟨((s.data.dropWhile Char.isWhitespace).reverse.dropWhile Char.isWhitespace).reverse⟩

/-- Python `str.split()` over characters: maximal runs of
non-whitespace characters. -/
def pySplitChars (l : List Char) : List (List Char) :=
  match l with
  | [] => []
  | c :: rest =>
    if c.isWhitespace then pySplitChars rest
    else
      (c :: rest).takeWhile (fun d => !d.isWhitespace) ::
        pySplitChars ((c :: rest).dropWhile (fun d => !d.isWhitespace))
termination_by l.length
decreasing_by
  all_goals simp_all
  calc (List.dropWhile (fun d => !d.isWhitespace) rest).length
      ≤ rest.length := (List.dropWhile_sublist _).length_le
    _ < rest.length + 1 := Nat.lt_succ_self _

/-- Python `str.split()` on a string. -/
def pySplit (s : String) : List String := (pySplitChars s.data).map String.mk

/-! ## Filesystem model

An explicit single-host filesystem value: an association list from
full paths to file contents, plus the set of existing directories.
`os.path.join a b` is modelled as `a ++ "/" ++ b`. -/

/-- A filesystem snapshot. -/
structure FS where
  files : List (String × String)
  dirs : List String
deriving DecidableEq

/-- First association for a path in the file table. -/
def readAux : List (String × String) → String → Option String
  | [], _ => none
  | e :: l, p => if e.1 = p then some e.2 else readAux l p

/-- Contents of the file at `p`, if it exists (`open(p)` / `isfile`). -/
def FS.read (fs : FS) (p : String) : Option String := readAux fs.files p

/-- Remove a path from the file table. -/
def eraseKey : List (String × String) → String → List (String × String)
  | [], _ => []
  | e :: l, p => if e.1 = p then eraseKey l p else e :: eraseKey l p

/-- Overwrite (or create) the file at `p` with contents `c`
(`open(p, "wb")` followed by writing `c`). -/
def FS.write (fs : FS) (p : String) (c : String) : FS :=
  { fs with files := (p, c) :: eraseKey fs.files p }

/-- `os.makedirs(p, exist_ok=True)`. -/
def FS.mkdir (fs : FS) (p : String) : FS :=
  if p ∈ fs.dirs then fs else { fs with dirs := p :: fs.dirs }

/-- `os.path.isfile`. -/
def FS.isfile (fs : FS) (p : String) : Bool := (fs.read p).isSome

/-- `os.path.isdir`. -/
def FS.isdir (fs : FS) (p : String) : Bool := p ∈ fs.dirs

/-- The name of `p` as a direct child of directory `dir`, when it is one. -/
def childName (dir p : String) : Option String :=
  let d := dir.data ++ ['/']
  if p.data.take d.length = d ∧ ¬ (p.data.drop d.length).contains '/' ∧
      d.length < p.data.length then
    some ⟨p.data.drop d.length⟩
  else none

/-- `os.listdir dir`: names of the files and subdirectories directly
inside `dir`. -/
def FS.listdir (fs : FS) (dir : String) : List String :=
  (fs.files.filterMap (fun e => childName dir e.1)) ++ fs.dirs.filterMap (childName dir)

/-! ## The program (`src/main.py`)

The resolved configuration consumed by `backup` (`main.py` lines
132-140): the directory list, destination path and the four retention
counts.  Python integers parsed from the configuration may be negative,
so counts are `Int`. -/

/-- The four retention counts (`main.py` lines 135-140). -/
structure RetentionPolicy where
  days : Int
  weeks : Int
  months : Int
  years : Int
deriving DecidableEq

/-- The message of the `ValueError` raised by
`determine_backup_category` for a degenerate policy — the
`InvalidPolicyError` of the specification's error taxonomy. -/
def invalidPolicyMsg : String := "Invalid retention policy. All categories set to 0."

/-- `determine_backup_category` (`main.py` lines 168-179): pick the
retention tier for the backup about to be created, raising for an
all-nonpositive policy. -/
def determine_backup_category (p : RetentionPolicy) : Except String String :=
  if p.days > 0 then .ok "daily"
  else if p.weeks > 0 then .ok "weekly"
  else if p.months > 0 then .ok "monthly"
  else if p.years > 0 then .ok "yearly"
  else .error invalidPolicyMsg

/-- The resolved configuration object read at the top of `backup`. -/
structure Config where
  directories : List String
  destination : String
  retention : RetentionPolicy

/-- `archive_name = f"backup-\x7btimestamp\x7d.tar.zst"`
(`main.py` line 147). -/
def archiveName (ts : String) : String := "backup-" ++ ts ++ ".tar.zst"

/-- `generate_sha256` (`main.py` lines 182-187): hex digest of the
file's bytes.  The code reads the file in 4096-byte chunks and feeds
each chunk to the same accumulator, which hashes exactly the whole
byte sequence. -/
def generate_sha256 (fs : FS) (path : String) : Except String String :=
  match fs.read path with
  | some c => .ok (sha256hex (strBytes c))
  | none => .error "FileNotFoundError"

/-- `update_metadata` (`main.py` lines 190-193): append
`f"\x7barchive_name\x7d \x7bsha256_hash\x7d\n"` to the tier's
`metadata.txt` (mode `"a"` creates the file when missing and never
discards existing contents). -/
def update_metadata (fs : FS) (destination category archive_name sha256_hash : String) : FS :=
  let metadata_file := destination ++ "/" ++ category ++ "/metadata.txt"
  let old := (fs.read metadata_file).getD ""
  fs.write metadata_file (old ++ archive_name ++ " " ++ sha256_hash ++ "\n")

/-- Outcome of the external tar/zstd streaming block (`main.py` lines
154-159): either it completes, having written `bytes`, or it raises
`err` after having written `written` to the destination file. -/
inductive BuildOutcome where
  | success (bytes : String)
  | failure (written : String) (err : String)
deriving DecidableEq

/-- `backup` (`main.py` lines 130-165), from the resolved
configuration on: classify the tier, create the tier directory, stream
the archive to `destination/category/backup-<ts>.tar.zst`, then hash
the written file and append the ledger line.  Returns the final
filesystem and the raised exception, if any; an exception inside the
`with` blocks leaves the partially written file in place (the file
object is closed, nothing removes the path) and skips the metadata
update. -/
def backup (cfg : Config) (timestamp : String) (outcome : BuildOutcome) (fs : FS) :
    FS × Except String Unit :=
  match determine_backup_category cfg.retention with
  | .error e => (fs, .error e)
  | .ok backup_category =>
    let archive_name := archiveName timestamp
    let dirPath := cfg.destination ++ "/" ++ backup_category
    let archive_path := dirPath ++ "/" ++ archive_name
    let fs := fs.mkdir dirPath
    match outcome with
    | .failure written e => (fs.write archive_path written, .error e)
    | .success bytes =>
      let fs1 := fs.write archive_path bytes
      match generate_sha256 fs1 archive_path with
      | .error e => (fs1, .error e)
      | .ok sha256_hash =>
        (update_metadata fs1 cfg.destination backup_category archive_name sha256_hash,
         .ok ())

/-- `load_metadata` (`main.py` lines 211-222, nested in
`list_backups`): collect the first whitespace-separated token of every
nonempty line of the tier's `metadata.txt`; empty result when the file
is missing.  No line ever raises. -/
def load_metadata (fs : FS) (category_path : String) : List String :=
  let metadata_file := category_path ++ "/metadata.txt"
  match fs.read metadata_file with
  | none => []
  | some content =>
    (strLines content).foldl
      (fun acc line =>
        let line := pyStrip line
        if line ≠ "" then
          match pySplit line with
          | [] => acc
          | w :: _ => acc ++ [w]
        else acc)
      []

/-- The fixed tier list of `list_backups` (`main.py` line 207). -/
def backup_categories : List String := ["daily", "weekly", "monthly", "yearly"]

/-- `list_backups` (`main.py` lines 204-242), modelled as the sequence
of `(category, filename)` pairs it prints: for each existing tier
directory, the directory entries (in reverse-sorted order) that are
regular files, appear in the tier's ledger, and are not the ledger
file itself. -/
def list_backups (base_path : String) (fs : FS) : List (String × String) :=
  backup_categories.flatMap (fun category =>
    let category_path := base_path ++ "/" ++ category
    if fs.isdir category_path then
      let valid_files := load_metadata fs category_path
      ((fs.listdir category_path).mergeSort (fun a b => b ≤ a)).filterMap
        (fun filename =>
          let file_path := category_path ++ "/" ++ filename
          if fs.isfile file_path ∧ filename ∈ valid_files ∧ filename ≠ "metadata.txt" then
            some (category, filename)
          else none)
    else [])

/-! ## Specification-side definitions

Definitions written from the specification's words, to be compared
against the source translations above. -/

/-- The count a policy assigns to a tier name. -/
def tierCount (p : RetentionPolicy) : String → Int
  | "daily" => p.days
  | "weekly" => p.weeks
  | "monthly" => p.months
  | "yearly" => p.years
  | _ => 0

/-- Spec side, for C3: the first tier in the fixed priority order
`daily > weekly > monthly > yearly` whose count is positive. -/
def firstPositiveTier (p : RetentionPolicy) : Option String :=
  backup_categories.find? (fun t => tierCount p t > 0)

/-- A calendar instant at second resolution, the input of
`time.strftime` (`main.py` line 146). -/
structure Timestamp where
  year : Nat
  month : Nat
  day : Nat
  hour : Nat
  minute : Nat
  second : Nat
deriving DecidableEq

/-- A zero-padded two-digit decimal field (`%m`, `%d`, `%H`, `%M`,
`%S`). -/
def pad2 (n : Nat) : List Char := [Nat.digitChar (n / 10 % 10), Nat.digitChar (n % 10)]

/-- A zero-padded four-digit decimal field (`%Y` for years up to
9999). -/
def pad4 (n : Nat) : List Char :=
  [Nat.digitChar (n / 1000 % 10), Nat.digitChar (n / 100 % 10),
   Nat.digitChar (n / 10 % 10), Nat.digitChar (n % 10)]

/-- Model of `time.strftime("%Y%m%d-%H%M%S")` (`main.py` line 146) on
a calendar instant with a four-digit year. -/
def strftimeYmdHMS (t : Timestamp) : String :=
  ⟨pad4 t.year ++ pad2 t.month ++ pad2 t.day ++ ['-'] ++
    pad2 t.hour ++ pad2 t.minute ++ pad2 t.second⟩

/-- The field bounds under which `strftime` produces fixed-width
fields. -/
def Timestamp.inRange (t : Timestamp) : Prop :=
  t.year < 10000 ∧ t.month < 100 ∧ t.day < 100 ∧
    t.hour < 100 ∧ t.minute < 100 ∧ t.second < 100

instance (t : Timestamp) : Decidable t.inRange := by
  unfold Timestamp.inRange; infer_instance

/-- Spec side, for C9: checker for the naming scheme
`backup-<YYYYMMDD-HHMMSS>.<ext>` with `<ext> = tar.zst`. -/
def isBackupArchiveName (s : String) : Bool :=
  let cs := s.data
  cs.length = 30 && cs.take 7 = "backup-".data && cs.drop 22 = ".tar.zst".data &&
    ((cs.drop 7).take 8).all Char.isDigit && cs.getD 15 ' ' = '-' &&
    ((cs.drop 16).take 6).all Char.isDigit

/-! ## Derived definitions and concrete sample values -/

/-- The ledger path of a tier, as built by `update_metadata` and
`load_metadata`. -/
def metadataPath (dest cat : String) : String := dest ++ "/" ++ cat ++ "/metadata.txt"

/-- The archive path built by `backup`. -/
def archivePathOf (dest cat ts : String) : String :=
  dest ++ "/" ++ cat ++ "/" ++ archiveName ts

/-- What one ledger line contributes in `load_metadata`: the first
whitespace token of the stripped line, or nothing for a blank line. -/
def parseFirst (line : String) : Option String :=
  let s := pyStrip line
  if s ≠ "" then
    match pySplit s with
    | [] => none
    | w :: _ => some w
  else none

/-- A concrete filesystem holding one archive file, for witnesses. -/
def fsA : FS := FS.write ⟨[], []⟩ (archivePathOf "/d" "daily" "20260101-120000") "A"

/-- A tier directory holding only a malformed ledger: one line with a
filename and no digest. -/
def fsBad : FS := FS.write ⟨[], []⟩ ("/dst" ++ "/" ++ "daily" ++ "/metadata.txt") "orphan.tar.zst\n"

/-- A sample configuration used only by concrete counterexamples. -/
def cfgX : Config := ⟨["/home/u"], "/dst", ⟨7, 4, 12, 2⟩⟩

/-- A store with one tier directory holding one archive file and a
ledger naming it, for the listing witness. -/
def fsW : FS :=
  ⟨[(("/w3" ++ "/" ++ "daily") ++ "/metadata.txt", "b.tar.zst\n"),
    (("/w3" ++ "/" ++ "daily") ++ "/b.tar.zst", "DATA")],
   ["/w3" ++ "/" ++ "daily"]⟩

/-! ## Basic lemmas about the filesystem model -/

theorem readAux_eraseKey_ne (l : List (String × String)) (p q : String) (h : q ≠ p) :
    readAux (eraseKey l p) q = readAux l q := by
  induction l with
  | nil => rfl
  | cons a l ih =>
    by_cases hp : a.1 = p
    · have hq : a.1 ≠ q := by rw [hp]; exact fun hh => h hh.symm
      rw [eraseKey, if_pos hp, ih, readAux, if_neg hq]
    · rw [eraseKey, if_neg hp, readAux, readAux]
      by_cases hq : a.1 = q
      · rw [if_pos hq, if_pos hq]
      · rw [if_neg hq, if_neg hq, ih]

theorem FS.read_write (fs : FS) (p c q : String) :
    (fs.write p c).read q = if q = p then some c else fs.read q := by
  unfold FS.write FS.read
  by_cases h : q = p
  · subst h; simp [readAux]
  · rw [if_neg h]
    have hp : p ≠ q := fun hh => h hh.symm
    simp only [readAux, if_neg hp]
    exact readAux_eraseKey_ne fs.files p q h

theorem FS.read_write_self (fs : FS) (p c : String) :
    (fs.write p c).read p = some c := by
  rw [FS.read_write]; simp

theorem FS.read_write_ne (fs : FS) (p c q : String) (h : q ≠ p) :
    (fs.write p c).read q = fs.read q := by
  rw [FS.read_write, if_neg h]

theorem FS.read_mkdir (fs : FS) (d q : String) : (fs.mkdir d).read q = fs.read q := by
  unfold FS.mkdir FS.read
  by_cases h : d ∈ fs.dirs <;> simp [h]

/-! ## Path lemmas -/

theorem path_data (dir name : String) :
    (dir ++ "/" ++ name).data = dir.data ++ '/' :: name.data := by
  simp

theorem archiveName_length (ts : String) : (archiveName ts).length = 15 + ts.length := by
  unfold archiveName
  have h1 : ("backup-" : String).length = 7 := rfl
  have h2 : (".tar.zst" : String).length = 8 := rfl
  simp only [String.length_append]
  omega

theorem archiveName_ne_metadata (ts : String) : archiveName ts ≠ "metadata.txt" := by
  intro h
  have : (archiveName ts).length = 12 := by rw [h]; rfl
  rw [archiveName_length] at this
  omega

/-- The archive path and the ledger path of the same tier directory
are always distinct. -/
theorem archivePath_ne_metadataPath (dest cat ts : String) :
    dest ++ "/" ++ cat ++ "/" ++ archiveName ts ≠ dest ++ "/" ++ cat ++ "/metadata.txt" := by
  intro h
  have hl := congrArg String.length h
  simp only [String.length_append] at hl
  have h1 : (archiveName ts).length = 15 + ts.length := archiveName_length ts
  have h2 : ("/" : String).length = 1 := rfl
  have h3 : ("/metadata.txt" : String).length = 13 := rfl
  omega

/-! ## Line-structure lemmas -/

/-- A text with no newline, a newline, then a remainder splits as that
first line followed by the lines of the remainder. -/
theorem linesOf_newline_split (a b : List Char) (h : '\n' ∉ a) :
    linesOf (a ++ '\n' :: b) = a :: linesOf b := by
  induction a with
  | nil => simp [linesOf]
  | cons c a ih =>
    have hc : ¬ (c = '\n') := fun hh => h (hh ▸ List.mem_cons_self c a)
    have ha : '\n' ∉ a := fun hh => h (List.mem_cons_of_mem _ hh)
    simp only [List.cons_append, linesOf, if_neg hc, List.append_eq]
    rw [ih ha]

/-- Prepending whole newline-terminated lines prepends them to the
line decomposition. -/
theorem linesOf_unlines_append (ls : List (List Char)) (r : List Char)
    (h : ∀ l ∈ ls, '\n' ∉ l) :
    linesOf (unlines ls ++ r) = ls ++ linesOf r := by
  induction ls with
  | nil => simp [unlines]
  | cons l ls ih =>
    have h1 : unlines (l :: ls) = l ++ '\n' :: unlines ls := rfl
    rw [h1, List.append_assoc, List.cons_append,
      linesOf_newline_split _ _ (h l (List.mem_cons_self l ls)),
      ih (fun x hx => h x (List.mem_cons_of_mem _ hx)), List.cons_append]

/-- The line decomposition of a well-formed ledger body. -/
theorem linesOf_unlines (ls : List (List Char)) (h : ∀ l ∈ ls, '\n' ∉ l) :
    linesOf (unlines ls) = ls ++ [[]] := by
  have := linesOf_unlines_append ls [] h
  simpa [linesOf] using this

/-! ## Whitespace and token lemmas -/

theorem takeWhile_all_append (p : Char → Bool) (n : List Char) (x : Char) (r : List Char)
    (hn : ∀ c ∈ n, p c = true) (hx : p x = false) :
    (n ++ x :: r).takeWhile p = n := by
  induction n with
  | nil => simp [List.takeWhile_cons, hx]
  | cons c m ih =>
    have hc : p c = true := hn c (List.mem_cons_self c m)
    simp only [List.cons_append, List.takeWhile_cons, hc, if_true]
    rw [ih (fun d hd => hn d (List.mem_cons_of_mem _ hd))]

theorem dropWhile_all_append (p : Char → Bool) (n : List Char) (x : Char) (r : List Char)
    (hn : ∀ c ∈ n, p c = true) (hx : p x = false) :
    (n ++ x :: r).dropWhile p = x :: r := by
  induction n with
  | nil => simp [List.dropWhile_cons, hx]
  | cons c m ih =>
    have hc : p c = true := hn c (List.mem_cons_self c m)
    simp only [List.cons_append, List.dropWhile_cons, hc, if_true]
    exact ih (fun d hd => hn d (List.mem_cons_of_mem _ hd))

theorem takeWhile_all (p : Char → Bool) (l : List Char) (h : ∀ c ∈ l, p c = true) :
    l.takeWhile p = l := by
  induction l with
  | nil => rfl
  | cons c m ih =>
    simp only [List.takeWhile_cons, h c (List.mem_cons_self c m), if_true]
    rw [ih (fun d hd => h d (List.mem_cons_of_mem _ hd))]

theorem dropWhile_all (p : Char → Bool) (l : List Char) (h : ∀ c ∈ l, p c = true) :
    l.dropWhile p = [] := by
  induction l with
  | nil => rfl
  | cons c m ih =>
    simp only [List.dropWhile_cons, h c (List.mem_cons_self c m), if_true]
    exact ih (fun d hd => h d (List.mem_cons_of_mem _ hd))

theorem dropWhileWs_cons_false (c : Char) (cs : List Char) (hc : c.isWhitespace = false) :
    (c :: cs).dropWhile Char.isWhitespace = c :: cs := by
  rw [List.dropWhile_cons, hc]
  simp

/-- `pySplitChars` of a single nonempty whitespace-free token. -/
theorem pySplitChars_token (d : List Char) (hd : d ≠ [])
    (hdw : ∀ c ∈ d, c.isWhitespace = false) :
    pySplitChars d = [d] := by
  obtain ⟨c', m', rfl⟩ := List.exists_cons_of_ne_nil hd
  have hc' : c'.isWhitespace = false := hdw c' (List.mem_cons_self c' m')
  rw [pySplitChars]
  simp only [hc', Bool.false_eq_true, if_false]
  rw [takeWhile_all _ _ (fun x hx => by simp [hdw x hx]),
    dropWhile_all _ _ (fun x hx => by simp [hdw x hx]), pySplitChars]

/-- `pySplitChars` of `<token> <token>` with both tokens nonempty and
whitespace-free. -/
theorem pySplitChars_two_tokens (n d : List Char)
    (hn : n ≠ []) (hd : d ≠ [])
    (hnw : ∀ c ∈ n, c.isWhitespace = false) (hdw : ∀ c ∈ d, c.isWhitespace = false) :
    pySplitChars (n ++ ' ' :: d) = [n, d] := by
  obtain ⟨c, m, rfl⟩ := List.exists_cons_of_ne_nil hn
  have hc : c.isWhitespace = false := hnw c (List.mem_cons_self c m)
  rw [List.cons_append, pySplitChars]
  simp only [hc, Bool.false_eq_true, if_false]
  rw [← List.cons_append]
  have ht : ((c :: m) ++ ' ' :: d).takeWhile (fun x => !x.isWhitespace) = c :: m :=
    takeWhile_all_append _ _ _ _ (fun x hx => by simp [hnw x hx]) (by simp)
  have hdr : ((c :: m) ++ ' ' :: d).dropWhile (fun x => !x.isWhitespace) = ' ' :: d :=
    dropWhile_all_append _ _ _ _ (fun x hx => by simp [hnw x hx]) (by simp)
  rw [ht, hdr, pySplitChars]
  have hsp : (' ' : Char).isWhitespace = true := by decide
  simp only [hsp, if_true]
  rw [pySplitChars_token d hd hdw]

/-- Stripping a string whose ends are non-whitespace is the
identity. -/
theorem pyStrip_eq_self_chars (n d : List Char)
    (hn : n ≠ []) (hd : d ≠ [])
    (hnw : ∀ c ∈ n, c.isWhitespace = false) (hdw : ∀ c ∈ d, c.isWhitespace = false) :
    pyStrip ⟨n ++ ' ' :: d⟩ = ⟨n ++ ' ' :: d⟩ := by
  unfold pyStrip
  obtain ⟨c, m, rfl⟩ := List.exists_cons_of_ne_nil hn
  have hc : c.isWhitespace = false := hnw c (List.mem_cons_self c m)
  rw [List.cons_append, dropWhileWs_cons_false c _ hc, ← List.cons_append]
  have hrev : ((c :: m) ++ ' ' :: d).reverse = d.reverse ++ ' ' :: (c :: m).reverse := by
    simp
  rw [hrev]
  rcases hdrv : d.reverse with _ | ⟨z, zs⟩
  · exact absurd (List.reverse_eq_nil_iff.mp hdrv) hd
  · have hz : z ∈ d := List.mem_reverse.mp (hdrv ▸ List.mem_cons_self z zs)
    rw [List.cons_append, dropWhileWs_cons_false z _ (hdw z hz), ← List.cons_append, ← hdrv]
    simp

/-! ## Ledger-line parsing -/

theorem load_metadata_foldl (lines acc : List String) :
    lines.foldl
      (fun acc line =>
        let line := pyStrip line
        if line ≠ "" then
          match pySplit line with
          | [] => acc
          | w :: _ => acc ++ [w]
        else acc)
      acc = acc ++ lines.filterMap parseFirst := by
  induction lines generalizing acc with
  | nil => simp
  | cons l ls ih =>
    rw [List.foldl_cons, ih]
    show (if pyStrip l ≠ "" then
        match pySplit (pyStrip l) with
        | [] => acc
        | w :: _ => acc ++ [w]
      else acc) ++ ls.filterMap parseFirst = acc ++ (l :: ls).filterMap parseFirst
    rw [List.filterMap_cons]
    unfold parseFirst
    by_cases h : pyStrip l ≠ ""
    · simp only [if_pos h]
      rcases hs : pySplit (pyStrip l) with _ | ⟨w, ws⟩ <;> simp [hs]
    · simp only [if_neg h]

/-- `load_metadata` as a filter-map over the file's lines. -/
theorem load_metadata_eq (fs : FS) (category_path : String) :
    load_metadata fs category_path =
      match fs.read (category_path ++ "/metadata.txt") with
      | none => []
      | some content => (strLines content).filterMap parseFirst := by
  simp only [load_metadata]
  rcases h : fs.read (category_path ++ "/metadata.txt") with _ | content
  · simp only [h]
  · simp only [h]
    rw [load_metadata_foldl]
    simp

/-- A ledger line `<name> <digest>` with nonempty whitespace-free
tokens parses to its filename. -/
theorem parseFirst_entry (name digest : String)
    (hn : name.data ≠ []) (hd : digest.data ≠ [])
    (hnw : ∀ c ∈ name.data, c.isWhitespace = false)
    (hdw : ∀ c ∈ digest.data, c.isWhitespace = false) :
    parseFirst (name ++ " " ++ digest) = some name := by
  have hdata : (name ++ " " ++ digest).data = name.data ++ ' ' :: digest.data := by
    simp only [String.data_append]
    rw [List.append_assoc]
    rfl
  have hmk : (name ++ " " ++ digest) = ⟨name.data ++ ' ' :: digest.data⟩ := String.ext hdata
  unfold parseFirst
  rw [hmk, pyStrip_eq_self_chars _ _ hn hd hnw hdw]
  have hne : (⟨name.data ++ ' ' :: digest.data⟩ : String) ≠ "" := by
    intro hh
    have h2 : name.data ++ ' ' :: digest.data = [] := congrArg String.data hh
    exact absurd h2 (by simp)
  rw [if_pos hne]
  show (match pySplit ⟨name.data ++ ' ' :: digest.data⟩ with
    | [] => none
    | w :: _ => some w) = some name
  unfold pySplit
  show (match (pySplitChars (name.data ++ ' ' :: digest.data)).map String.mk with
    | [] => none
    | w :: _ => some w) = some name
  rw [pySplitChars_two_tokens _ _ hn hd hnw hdw]
  rfl

/-! ## Digest format lemmas -/

theorem shaCompress_length (H block : List Nat) : (shaCompress H block).length = 8 := rfl

theorem foldl_shaCompress_length (bs : List (List Nat)) (H : List Nat) (h : H.length = 8) :
    (bs.foldl shaCompress H).length = 8 := by
  induction bs generalizing H with
  | nil => exact h
  | cons b bs ih => exact ih _ (shaCompress_length _ _)

theorem sha256_length (msg : List Nat) : (sha256 msg).length = 8 :=
  foldl_shaCompress_length _ _ rfl

theorem hexWordChars_length (n : Nat) : (hexWordChars n).length = 8 := by
  simp [hexWordChars]

theorem sha256hex_data (msg : List Nat) :
    (sha256hex msg).data = ((sha256 msg).map hexWordChars).flatten := rfl

/-- A SHA-256 hex digest has exactly 64 characters. -/
theorem sha256hex_length (msg : List Nat) : (sha256hex msg).length = 64 := by
  show ((sha256 msg).map hexWordChars).flatten.length = 64
  rw [List.length_flatten, List.map_map]
  have h1 : (sha256 msg).map (List.length ∘ hexWordChars) = (sha256 msg).map (fun _ => 8) := by
    apply List.map_congr_left
    intro a _
    exact hexWordChars_length a
  rw [h1, List.map_const', List.sum_replicate, sha256_length]
  norm_num

/-- Every character of a SHA-256 hex digest is a hex digit character. -/
theorem sha256hex_chars (msg : List Nat) :
    ∀ c ∈ (sha256hex msg).data, ∃ k, k < 16 ∧ c = Nat.digitChar k := by
  intro c hc
  rw [sha256hex_data] at hc
  obtain ⟨l, hl, hcl⟩ := List.mem_flatten.mp hc
  obtain ⟨w, _, rfl⟩ := List.mem_map.mp hl
  obtain ⟨i, _, rfl⟩ := List.mem_map.mp hcl
  exact ⟨_, Nat.mod_lt _ (by norm_num), rfl⟩

/-- The sixteen hex digit characters are lowercase hex, non-blank and
printable. -/
theorem digitChar_facts : ∀ k, k < 16 →
    Nat.digitChar k ∈ ("0123456789abcdef" : String).data ∧
      (Nat.digitChar k).isWhitespace = false ∧ Nat.digitChar k ≠ '\n' := by
  decide

theorem sha256hex_no_ws (msg : List Nat) :
    ∀ c ∈ (sha256hex msg).data, c.isWhitespace = false := by
  intro c hc
  obtain ⟨k, hk, rfl⟩ := sha256hex_chars msg c hc
  exact (digitChar_facts k hk).2.1

theorem sha256hex_no_newline (msg : List Nat) : '\n' ∉ (sha256hex msg).data := by
  intro hc
  obtain ⟨k, hk, he⟩ := sha256hex_chars msg '\n' hc
  exact (digitChar_facts k hk).2.2 he.symm

theorem sha256hex_ne_nil (msg : List Nat) : (sha256hex msg).data ≠ [] := by
  intro h
  have h1 := sha256hex_length msg
  rw [String.length] at h1
  rw [h] at h1
  simp at h1

/-! ## Ledger-append lemmas -/

theorem unlines_append (xs ys : List (List Char)) :
    unlines (xs ++ ys) = unlines xs ++ unlines ys := by
  induction xs with
  | nil => simp [unlines]
  | cons l xs ih =>
    show l ++ '\n' :: unlines (xs ++ ys) = (l ++ '\n' :: unlines xs) ++ unlines ys
    rw [ih, List.append_assoc, List.cons_append]

theorem parseFirst_empty : parseFirst "" = none := rfl

/-- Characters of `archiveName ts` for a whitespace-free timestamp. -/
theorem archiveName_no_ws (ts : String) (hts : ∀ c ∈ ts.data, c.isWhitespace = false) :
    ∀ c ∈ (archiveName ts).data, c.isWhitespace = false := by
  intro c hc
  unfold archiveName at hc
  simp only [String.data_append] at hc
  rcases List.mem_append.mp hc with h | h
  · rcases List.mem_append.mp h with h2 | h2
    · revert h2
      have : ∀ c ∈ ("backup-" : String).data, c.isWhitespace = false := by decide
      exact this c
    · exact hts c h2
  · revert h
    have : ∀ c ∈ (".tar.zst" : String).data, c.isWhitespace = false := by decide
    exact this c

theorem not_ws_ne_newline (c : Char) (h : c.isWhitespace = false) : c ≠ '\n' := by
  intro hh
  rw [hh] at h
  exact absurd h (by decide)

theorem archiveName_data_ne_nil (ts : String) : (archiveName ts).data ≠ [] := by
  intro h
  have h1 := archiveName_length ts
  rw [String.length, h] at h1
  simp at h1
  omega

/-- The appended ledger line has no newline and parses to the archive
filename. -/
theorem parseFirst_archive_entry (ts : String) (digest : List Nat)
    (hts : ∀ c ∈ ts.data, c.isWhitespace = false) :
    parseFirst (archiveName ts ++ " " ++ sha256hex digest) = some (archiveName ts) :=
  parseFirst_entry _ _ (archiveName_data_ne_nil ts) (sha256hex_ne_nil digest)
    (archiveName_no_ws ts hts) (sha256hex_no_ws digest)

theorem entry_no_newline (ts : String) (digest : List Nat)
    (hts : ∀ c ∈ ts.data, c.isWhitespace = false) :
    '\n' ∉ (archiveName ts ++ " " ++ sha256hex digest).data := by
  intro hc
  simp only [String.data_append] at hc
  rcases List.mem_append.mp hc with h | h
  · rcases List.mem_append.mp h with h2 | h2
    · exact not_ws_ne_newline _ (archiveName_no_ws ts hts _ h2) rfl
    · revert h2
      decide
  · exact sha256hex_no_newline digest h

/-- Line decomposition of a well-formed ledger body, at string
level. -/
theorem strLines_unlines (ls : List (List Char)) (h : ∀ l ∈ ls, '\n' ∉ l) :
    strLines ⟨unlines ls⟩ = ls.map String.mk ++ [""] := by
  unfold strLines
  show (linesOf (unlines ls)).map String.mk = _
  rw [linesOf_unlines ls h]
  simp

/-- The trailing empty line of a newline-terminated file contributes
nothing to the parsed filename list. -/
theorem filterMap_parse_final_empty (ls : List (List Char)) :
    ((ls.map String.mk ++ [""]).filterMap parseFirst) =
      (ls.map String.mk).filterMap parseFirst := by
  rw [List.filterMap_append]
  simp [parseFirst_empty]

/-! ## Claim theorems -/

/-- C2: for every retention policy (four integer counts),
classification into a tier succeeds — deterministically, being a pure
function of the policy — exactly when at least one of the four counts
is positive, and fails with the invalid-policy error exactly when all
four counts are zero or negative. -/
theorem determine_backup_category_total_iff (p : RetentionPolicy) :
    ((∃ t, determine_backup_category p = Except.ok t) ↔
      (0 < p.days ∨ 0 < p.weeks ∨ 0 < p.months ∨ 0 < p.years)) ∧
    (determine_backup_category p = Except.error invalidPolicyMsg ↔
      (p.days ≤ 0 ∧ p.weeks ≤ 0 ∧ p.months ≤ 0 ∧ p.years ≤ 0)) := by
  unfold determine_backup_category
  split_ifs with h1 h2 h3 h4 <;>
    constructor <;> constructor <;> intro h <;> simp_all <;> omega

/-- The first-match search over the fixed priority list agrees with
the code's cascaded conditional. -/
theorem firstPositiveTier_eq (p : RetentionPolicy) :
    firstPositiveTier p = (determine_backup_category p).toOption := by
  unfold determine_backup_category firstPositiveTier backup_categories tierCount
  by_cases h1 : 0 < p.days
  · simp [List.find?, decide_eq_true h1, Except.toOption, h1]
  · have d1 : decide (0 < p.days) = false := decide_eq_false h1
    by_cases h2 : 0 < p.weeks
    · simp [List.find?, d1, h1, decide_eq_true h2, Except.toOption, h2]
    · have d2 : decide (0 < p.weeks) = false := decide_eq_false h2
      by_cases h3 : 0 < p.months
      · simp [List.find?, d1, d2, h1, h2, decide_eq_true h3, Except.toOption, h3]
      · have d3 : decide (0 < p.months) = false := decide_eq_false h3
        by_cases h4 : 0 < p.years
        · simp [List.find?, d1, d2, d3, h1, h2, h3, decide_eq_true h4, Except.toOption, h4]
        · have d4 : decide (0 < p.years) = false := decide_eq_false h4
          simp [List.find?, d1, d2, d3, d4, h1, h2, h3, h4, Except.toOption]

/-- C3: classification is first-match over the fixed priority order
daily > weekly > monthly > yearly: the chosen tier is the first tier in
that order with a positive count, and a positive daily count always
yields "daily" whatever the other counts are. -/
theorem determine_backup_category_first_match (p : RetentionPolicy) :
    (∀ t, determine_backup_category p = Except.ok t ↔ firstPositiveTier p = some t) ∧
    (0 < p.days → determine_backup_category p = Except.ok "daily") := by
  constructor
  · intro t
    rw [firstPositiveTier_eq]
    rcases h : determine_backup_category p with e | v <;> simp [Except.toOption]
  · intro h
    unfold determine_backup_category
    simp [h]

/-- Witness for C3 at the spec's scenario policy
`{days=7, weeks=0, months=0, years=0}` and at the default policy
`{7, 4, 12, 2}`: both classify as "daily". -/
theorem determine_backup_category_first_match_witness :
    determine_backup_category ⟨7, 0, 0, 0⟩ = Except.ok "daily" ∧
      determine_backup_category ⟨7, 4, 12, 2⟩ = Except.ok "daily" :=
  ⟨(determine_backup_category_first_match ⟨7, 0, 0, 0⟩).2 (by norm_num),
   (determine_backup_category_first_match ⟨7, 4, 12, 2⟩).2 (by norm_num)⟩

/-! ## Paths -/

theorem unlines_eq_nil (ls : List (List Char)) (h : unlines ls = []) : ls = [] := by
  cases ls with
  | nil => rfl
  | cons l t =>
    exfalso
    have : l ++ '\n' :: unlines t = [] := h
    simp at this

/-- The ledger body after `update_metadata`: the old body plus exactly
one newline-terminated line. -/
theorem update_metadata_read (fs : FS) (dest cat name hash : String) :
    (update_metadata fs dest cat name hash).read (metadataPath dest cat) =
      some ((fs.read (metadataPath dest cat)).getD "" ++ name ++ " " ++ hash ++ "\n") := by
  unfold update_metadata metadataPath
  exact FS.read_write_self _ _ _

/-- `update_metadata` touches no file other than the tier's ledger. -/
theorem update_metadata_read_other (fs : FS) (dest cat name hash q : String)
    (h : q ≠ metadataPath dest cat) :
    (update_metadata fs dest cat name hash).read q = fs.read q := by
  unfold update_metadata
  exact FS.read_write_ne _ _ _ _ h

/-- Appending one well-formed ledger line: the parsed filename list
grows by exactly that filename, and the body becomes the well-formed
body with one more line. -/
theorem load_metadata_after_append (fs : FS) (dest cat name hash : String)
    (ls : List (List Char))
    (hold : ((fs.read (metadataPath dest cat)).getD "").data = unlines ls)
    (hls : ∀ l ∈ ls, '\n' ∉ l)
    (hname : parseFirst (name ++ " " ++ hash) = some name)
    (hentry : '\n' ∉ (name ++ " " ++ hash).data) :
    load_metadata (update_metadata fs dest cat name hash) (dest ++ "/" ++ cat) =
      load_metadata fs (dest ++ "/" ++ cat) ++ [name] ∧
    (((update_metadata fs dest cat name hash).read (metadataPath dest cat)).getD "").data =
      unlines (ls ++ [(name ++ " " ++ hash).data]) := by
  have hmeta : (dest ++ "/" ++ cat) ++ "/metadata.txt" = metadataPath dest cat := rfl
  have hread := update_metadata_read fs dest cat name hash
  have hnewdata :
      (((fs.read (metadataPath dest cat)).getD "" ++ name ++ " " ++ hash ++ "\n")).data =
        unlines (ls ++ [(name ++ " " ++ hash).data]) := by
    rw [unlines_append]
    simp only [String.data_append, hold]
    show _ = unlines ls ++ ((name ++ " " ++ hash).data ++ '\n' :: unlines [])
    simp [unlines, String.data_append, List.append_assoc]
  have hbody : (((update_metadata fs dest cat name hash).read (metadataPath dest cat)).getD "").data =
      unlines (ls ++ [(name ++ " " ++ hash).data]) := by
    rw [hread]
    exact hnewdata
  refine ⟨?_, hbody⟩
  have hwf : ∀ l ∈ ls ++ [(name ++ " " ++ hash).data], '\n' ∉ l := by
    intro l hl
    rcases List.mem_append.mp hl with h | h
    · exact hls l h
    · rcases List.mem_singleton.mp h with rfl
      exact hentry
  -- the new side
  have hnew : load_metadata (update_metadata fs dest cat name hash) (dest ++ "/" ++ cat) =
      ((ls ++ [(name ++ " " ++ hash).data]).map String.mk).filterMap parseFirst := by
    rw [load_metadata_eq]
    rw [hmeta, hread]
    have hc : ((fs.read (metadataPath dest cat)).getD "" ++ name ++ " " ++ hash ++ "\n") =
        ⟨unlines (ls ++ [(name ++ " " ++ hash).data])⟩ := String.ext hnewdata
    rw [hc]
    show (strLines ⟨unlines (ls ++ [(name ++ " " ++ hash).data])⟩).filterMap parseFirst = _
    rw [strLines_unlines _ hwf, filterMap_parse_final_empty]
  -- the old side
  have hmk : (⟨name.data ++ ' ' :: hash.data⟩ : String) = name ++ " " ++ hash := by
    apply String.ext
    simp
  rcases hr : fs.read (metadataPath dest cat) with _ | c
  · have h0 : ls = [] := by
      apply unlines_eq_nil
      rw [← hold, hr]
      rfl
    subst h0
    have hloadold : load_metadata fs (dest ++ "/" ++ cat) = [] := by
      rw [load_metadata_eq, hmeta, hr]
    rw [hnew, hloadold]
    simp [hmk, hname]
  · have hcdata : c.data = unlines ls := by
      rw [← hold, hr]
      rfl
    have hc : c = ⟨unlines ls⟩ := String.ext hcdata
    have hloadold : load_metadata fs (dest ++ "/" ++ cat) =
        (ls.map String.mk).filterMap parseFirst := by
      rw [load_metadata_eq, hmeta, hr, hc]
      show (strLines ⟨unlines ls⟩).filterMap parseFirst = _
      rw [strLines_unlines _ hls, filterMap_parse_final_empty]
    rw [hnew, hloadold]
    simp [hmk, hname]

/-- C4: appending a ledger entry records the hex SHA-256 digest of the
archive file's bytes as one `<filename> <64-hex-digest>` line
terminated by a newline, appended after every line already present;
the previous body is preserved byte for byte (append, never
truncate). -/
theorem update_metadata_appends_one_line (fs : FS) (dest cat ts content : String)
    (ls : List (List Char))
    (harch : fs.read (archivePathOf dest cat ts) = some content)
    (hts : ∀ c ∈ ts.data, c.isWhitespace = false)
    (hold : ((fs.read (metadataPath dest cat)).getD "").data = unlines ls)
    (hls : ∀ l ∈ ls, '\n' ∉ l) :
    generate_sha256 fs (archivePathOf dest cat ts) =
      Except.ok (sha256hex (strBytes content)) ∧
    (update_metadata fs dest cat (archiveName ts) (sha256hex (strBytes content))).read
        (metadataPath dest cat) =
      some ((fs.read (metadataPath dest cat)).getD "" ++ archiveName ts ++ " " ++
        sha256hex (strBytes content) ++ "\n") ∧
    (((update_metadata fs dest cat (archiveName ts) (sha256hex (strBytes content))).read
        (metadataPath dest cat)).getD "").data =
      unlines (ls ++ [(archiveName ts ++ " " ++ sha256hex (strBytes content)).data]) ∧
    (sha256hex (strBytes content)).length = 64 ∧
    (∀ c ∈ (sha256hex (strBytes content)).data, c ∈ ("0123456789abcdef" : String).data) ∧
    '\n' ∉ (archiveName ts ++ " " ++ sha256hex (strBytes content)).data := by
  refine ⟨?_, update_metadata_read fs dest cat _ _, ?_, sha256hex_length _, ?_, ?_⟩
  · unfold generate_sha256
    rw [harch]
  · exact (load_metadata_after_append fs dest cat (archiveName ts)
      (sha256hex (strBytes content)) ls hold hls
      (parseFirst_archive_entry ts (strBytes content) hts)
      (entry_no_newline ts (strBytes content) hts)).2
  · intro c hc
    obtain ⟨k, hk, rfl⟩ := sha256hex_chars _ c hc
    exact (digitChar_facts k hk).1
  · exact entry_no_newline ts (strBytes content) hts

/-- Witness for C4: a concrete append to an empty ledger records a
64-character digest line. -/
theorem update_metadata_appends_one_line_witness :
    (sha256hex (strBytes "A")).length = 64 :=
  (update_metadata_appends_one_line fsA "/d" "daily" "20260101-120000" "A" []
    (FS.read_write_self _ _ _) (by decide) (by rfl) (by simp)).2.2.2.1

/-! ## The backup invariant (C1) -/

/-- Computation of a successful `backup` run: the archive is written
first, then the ledger line is appended to the filesystem that already
contains the archive. -/
theorem backup_success_eq (cfg : Config) (ts content : String) (fs : FS) (cat : String)
    (hcat : determine_backup_category cfg.retention = Except.ok cat) :
    backup cfg ts (BuildOutcome.success content) fs =
      (update_metadata
        ((fs.mkdir (cfg.destination ++ "/" ++ cat)).write
          (archivePathOf cfg.destination cat ts) content)
        cfg.destination cat (archiveName ts) (sha256hex (strBytes content)),
       Except.ok ()) := by
  have hg : generate_sha256
      ((fs.mkdir (cfg.destination ++ "/" ++ cat)).write
        (archivePathOf cfg.destination cat ts) content)
      (archivePathOf cfg.destination cat ts) = Except.ok (sha256hex (strBytes content)) := by
    unfold generate_sha256
    rw [FS.read_write_self]
  unfold backup
  rw [hcat]
  unfold archivePathOf at hg
  simp only [hg]
  rfl

/-- C1: after any successful `backup`, exactly one new entry is
appended to the chosen tier's ledger, its recorded digest equals the
SHA-256 digest recomputed over the bytes of the newly written archive
file, and the ledger line is appended to a filesystem in which the
archive file already exists. -/
theorem backup_ledger_invariant (cfg : Config) (ts content : String) (fs : FS) (cat : String)
    (ls : List (List Char))
    (hcat : determine_backup_category cfg.retention = Except.ok cat)
    (hts : ∀ c ∈ ts.data, c.isWhitespace = false)
    (hold : ((fs.read (metadataPath cfg.destination cat)).getD "").data = unlines ls)
    (hls : ∀ l ∈ ls, '\n' ∉ l) :
    ∃ fsMid : FS,
      fsMid.read (archivePathOf cfg.destination cat ts) = some content ∧
      backup cfg ts (BuildOutcome.success content) fs =
        (update_metadata fsMid cfg.destination cat (archiveName ts)
          (sha256hex (strBytes content)), Except.ok ()) ∧
      (backup cfg ts (BuildOutcome.success content) fs).1.read
          (archivePathOf cfg.destination cat ts) = some content ∧
      generate_sha256 (backup cfg ts (BuildOutcome.success content) fs).1
          (archivePathOf cfg.destination cat ts) =
        Except.ok (sha256hex (strBytes content)) ∧
      load_metadata (backup cfg ts (BuildOutcome.success content) fs).1
          (cfg.destination ++ "/" ++ cat) =
        load_metadata fs (cfg.destination ++ "/" ++ cat) ++ [archiveName ts] ∧
      (((backup cfg ts (BuildOutcome.success content) fs).1.read
          (metadataPath cfg.destination cat)).getD "").data =
        unlines (ls ++ [(archiveName ts ++ " " ++ sha256hex (strBytes content)).data]) := by
  set fsMid := (fs.mkdir (cfg.destination ++ "/" ++ cat)).write
    (archivePathOf cfg.destination cat ts) content with hmid
  have hbeq := backup_success_eq cfg ts content fs cat hcat
  have hmread : fsMid.read (archivePathOf cfg.destination cat ts) = some content :=
    FS.read_write_self _ _ _
  have hpathne : archivePathOf cfg.destination cat ts ≠ metadataPath cfg.destination cat :=
    archivePath_ne_metadataPath cfg.destination cat ts
  have hfinread : (backup cfg ts (BuildOutcome.success content) fs).1.read
      (archivePathOf cfg.destination cat ts) = some content := by
    rw [hbeq]
    show (update_metadata fsMid cfg.destination cat (archiveName ts)
      (sha256hex (strBytes content))).read (archivePathOf cfg.destination cat ts) = some content
    rw [update_metadata_read_other _ _ _ _ _ _ hpathne]
    exact hmread
  have holdmid : ((fsMid.read (metadataPath cfg.destination cat)).getD "").data = unlines ls := by
    rw [hmid]
    show (((FS.write _ _ content).read (metadataPath cfg.destination cat)).getD "").data = _
    rw [FS.read_write_ne _ _ _ _ (fun hh => hpathne hh.symm), FS.read_mkdir]
    exact hold
  have happ := load_metadata_after_append fsMid cfg.destination cat (archiveName ts)
    (sha256hex (strBytes content)) ls holdmid hls
    (parseFirst_archive_entry ts (strBytes content) hts)
    (entry_no_newline ts (strBytes content) hts)
  have hloadfs : load_metadata fsMid (cfg.destination ++ "/" ++ cat) =
      load_metadata fs (cfg.destination ++ "/" ++ cat) := by
    rw [load_metadata_eq, load_metadata_eq]
    have : fsMid.read ((cfg.destination ++ "/" ++ cat) ++ "/metadata.txt") =
        fs.read ((cfg.destination ++ "/" ++ cat) ++ "/metadata.txt") := by
      show fsMid.read (metadataPath cfg.destination cat) = fs.read (metadataPath cfg.destination cat)
      rw [hmid]
      show (FS.write _ _ content).read (metadataPath cfg.destination cat) = _
      rw [FS.read_write_ne _ _ _ _ (fun hh => hpathne hh.symm), FS.read_mkdir]
    rw [this]
  refine ⟨fsMid, hmread, hbeq, hfinread, ?_, ?_, ?_⟩
  · unfold generate_sha256
    rw [hfinread]
  · rw [hbeq]
    show load_metadata (update_metadata fsMid cfg.destination cat (archiveName ts)
      (sha256hex (strBytes content))) (cfg.destination ++ "/" ++ cat) = _
    rw [happ.1, hloadfs]
  · rw [hbeq]
    exact happ.2

/-- Witness for C1: one concrete successful backup run on an empty
filesystem appends exactly the new archive's ledger entry. -/
theorem backup_ledger_invariant_witness :
    ∃ fsMid : FS,
      fsMid.read (archivePathOf "/dst" "daily" "20260101-120000") = some "DATA" ∧
      backup ⟨["/home/u"], "/dst", ⟨7, 4, 12, 2⟩⟩ "20260101-120000"
          (BuildOutcome.success "DATA") ⟨[], []⟩ =
        (update_metadata fsMid "/dst" "daily" (archiveName "20260101-120000")
          (sha256hex (strBytes "DATA")), Except.ok ()) ∧
      (backup ⟨["/home/u"], "/dst", ⟨7, 4, 12, 2⟩⟩ "20260101-120000"
          (BuildOutcome.success "DATA") ⟨[], []⟩).1.read
          (archivePathOf "/dst" "daily" "20260101-120000") = some "DATA" ∧
      generate_sha256 (backup ⟨["/home/u"], "/dst", ⟨7, 4, 12, 2⟩⟩ "20260101-120000"
          (BuildOutcome.success "DATA") ⟨[], []⟩).1
          (archivePathOf "/dst" "daily" "20260101-120000") =
        Except.ok (sha256hex (strBytes "DATA")) ∧
      load_metadata (backup ⟨["/home/u"], "/dst", ⟨7, 4, 12, 2⟩⟩ "20260101-120000"
          (BuildOutcome.success "DATA") ⟨[], []⟩).1 ("/dst" ++ "/" ++ "daily") =
        load_metadata (⟨[], []⟩ : FS) ("/dst" ++ "/" ++ "daily") ++
          [archiveName "20260101-120000"] ∧
      (((backup ⟨["/home/u"], "/dst", ⟨7, 4, 12, 2⟩⟩ "20260101-120000"
          (BuildOutcome.success "DATA") ⟨[], []⟩).1.read
          (metadataPath "/dst" "daily")).getD "").data =
        unlines ([] ++ [(archiveName "20260101-120000" ++ " " ++
          sha256hex (strBytes "DATA")).data]) :=
  backup_ledger_invariant ⟨["/home/u"], "/dst", ⟨7, 4, 12, 2⟩⟩ "20260101-120000" "DATA"
    ⟨[], []⟩ "daily" [] (by rfl) (by decide) (by rfl) (by simp)

/-! ## Ledger loading (C5) -/

/-- Stripping a nonempty whitespace-free token is the identity. -/
theorem pyStrip_eq_self_token (d : List Char) (hd : d ≠ [])
    (hdw : ∀ c ∈ d, c.isWhitespace = false) :
    pyStrip ⟨d⟩ = ⟨d⟩ := by
  unfold pyStrip
  obtain ⟨c, m, rfl⟩ := List.exists_cons_of_ne_nil hd
  rw [dropWhileWs_cons_false c m (hdw c (List.mem_cons_self c m))]
  rcases hrv : (c :: m).reverse with _ | ⟨z, zs⟩
  · exact absurd (List.reverse_eq_nil_iff.mp hrv) hd
  · have hz : z ∈ c :: m := List.mem_reverse.mp (hrv ▸ List.mem_cons_self z zs)
    rw [dropWhileWs_cons_false z zs (hdw z hz), ← hrv]
    simp

/-- A line holding a single nonempty whitespace-free token — for
instance a ledger line with no digest — parses to that token. -/
theorem parseFirst_token (d : List Char) (hd : d ≠ [])
    (hdw : ∀ c ∈ d, c.isWhitespace = false) :
    parseFirst ⟨d⟩ = some ⟨d⟩ := by
  unfold parseFirst
  rw [pyStrip_eq_self_token d hd hdw]
  have hne : (⟨d⟩ : String) ≠ "" := by
    intro hh
    exact hd (congrArg String.data hh)
  rw [if_pos hne]
  show (match pySplit ⟨d⟩ with
    | [] => none
    | w :: _ => some w) = some ⟨d⟩
  unfold pySplit
  show (match (pySplitChars d).map String.mk with
    | [] => none
    | w :: _ => some w) = some ⟨d⟩
  rw [pySplitChars_token d hd hdw]
  rfl

/-- Loading a ledger that consists of one digest-less line yields that
line's token — no error of any kind is raised. -/
theorem load_single_token (fs : FS) (p : String) (d : List Char) (hd : d ≠ [])
    (hdw : ∀ c ∈ d, c.isWhitespace = false)
    (hread : fs.read (p ++ "/metadata.txt") = some ⟨d ++ ['\n']⟩) :
    load_metadata fs p = [⟨d⟩] := by
  rw [load_metadata_eq, hread]
  show (strLines ⟨d ++ ['\n']⟩).filterMap parseFirst = _
  have hu : d ++ ['\n'] = unlines [d] := by
    simp [unlines]
  have hwf : ∀ l ∈ [d], '\n' ∉ l := by
    intro l hl
    rcases List.mem_singleton.mp hl with rfl
    intro hc
    exact absurd (hdw '\n' hc) (by decide)
  rw [hu, strLines_unlines [d] hwf, filterMap_parse_final_empty]
  simp [parseFirst_token d hd hdw]

theorem load_metadata_missing (fs : FS) (p : String)
    (h : fs.read (p ++ "/metadata.txt") = none) : load_metadata fs p = [] := by
  rw [load_metadata_eq, h]

/-- Counterexample to C5: on a ledger whose single line has no digest,
`load_metadata` does not fail with any error — it silently returns the
line's first token as a valid filename. -/
theorem load_metadata_no_corrupt_error :
    load_metadata fsBad ("/dst" ++ "/" ++ "daily") = ["orphan.tar.zst"] := by
  have hread : fsBad.read (("/dst" ++ "/" ++ "daily") ++ "/metadata.txt") =
      some ⟨("orphan.tar.zst" : String).data ++ ['\n']⟩ := by
    unfold fsBad
    rw [FS.read_write_self]
    decide
  exact load_single_token fsBad ("/dst" ++ "/" ++ "daily") ("orphan.tar.zst" : String).data
    (by decide) (by decide) hread

/-- C5 amended: loading a tier's ledger returns the empty set when the
ledger file is missing; it never fails on a malformed line — a line
that lacks a digest is silently accepted and contributes its first
token as a filename. -/
theorem load_metadata_missing_and_lenient (fs : FS) (p : String) (d : List Char)
    (hd : d ≠ []) (hdw : ∀ c ∈ d, c.isWhitespace = false) :
    (fs.read (p ++ "/metadata.txt") = none → load_metadata fs p = []) ∧
    (fs.read (p ++ "/metadata.txt") = some ⟨d ++ ['\n']⟩ → load_metadata fs p = [⟨d⟩]) :=
  ⟨load_metadata_missing fs p, load_single_token fs p d hd hdw⟩

/-- Witness for the amended C5 at a concrete missing ledger. -/
theorem load_metadata_missing_and_lenient_witness :
    load_metadata (⟨[], []⟩ : FS) "/nowhere" = [] :=
  (load_metadata_missing_and_lenient ⟨[], []⟩ "/nowhere" ("x" : String).data
    (by decide) (by decide)).1 rfl

/-! ## Failure behaviour of `backup` (C6, C7) -/

/-- Computation of a failed archive-build inside `backup`: the file at
the archive path holds the bytes written before the exception, and the
exception propagates unchanged. -/
theorem backup_failure_eq (cfg : Config) (ts w e : String) (fs : FS) (cat : String)
    (hcat : determine_backup_category cfg.retention = Except.ok cat) :
    backup cfg ts (BuildOutcome.failure w e) fs =
      ((fs.mkdir (cfg.destination ++ "/" ++ cat)).write
        (archivePathOf cfg.destination cat ts) w, Except.error e) := by
  unfold backup
  rw [hcat]
  rfl

/-- Counterexample to C6: when the archive build raises mid-stream,
the partially written archive file is left on disk — it is not removed
— and the original exception, not an `ArchiveWriteError`, reaches the
caller. -/
theorem backup_failure_leaves_partial_file :
    (backup cfgX "20260101-120000" (BuildOutcome.failure "PART" "disk full")
        ⟨[], []⟩).1.read (archivePathOf "/dst" "daily" "20260101-120000") = some "PART" ∧
    (backup cfgX "20260101-120000" (BuildOutcome.failure "PART" "disk full")
        ⟨[], []⟩).2 = Except.error "disk full" := by
  constructor
  · rw [backup_failure_eq cfgX "20260101-120000" "PART" "disk full" ⟨[], []⟩ "daily" rfl]
    exact FS.read_write_self _ _ _
  · rw [backup_failure_eq cfgX "20260101-120000" "PART" "disk full" ⟨[], []⟩ "daily" rfl]

/-- C6 amended: if the archive build fails mid-stream, the exception
propagates to the caller unchanged, the partially written archive file
remains on disk at the destination path, and no ledger entry is
appended (the tier's ledger file is untouched). -/
theorem backup_failure_behaviour (cfg : Config) (ts w e : String) (fs : FS) (cat : String)
    (hcat : determine_backup_category cfg.retention = Except.ok cat) :
    (backup cfg ts (BuildOutcome.failure w e) fs).2 = Except.error e ∧
    (backup cfg ts (BuildOutcome.failure w e) fs).1.read
      (archivePathOf cfg.destination cat ts) = some w ∧
    (backup cfg ts (BuildOutcome.failure w e) fs).1.read (metadataPath cfg.destination cat) =
      fs.read (metadataPath cfg.destination cat) ∧
    load_metadata (backup cfg ts (BuildOutcome.failure w e) fs).1
        (cfg.destination ++ "/" ++ cat) =
      load_metadata fs (cfg.destination ++ "/" ++ cat) := by
  rw [backup_failure_eq cfg ts w e fs cat hcat]
  have hpathne : archivePathOf cfg.destination cat ts ≠ metadataPath cfg.destination cat :=
    archivePath_ne_metadataPath cfg.destination cat ts
  have hmeta : ((fs.mkdir (cfg.destination ++ "/" ++ cat)).write
      (archivePathOf cfg.destination cat ts) w).read (metadataPath cfg.destination cat) =
      fs.read (metadataPath cfg.destination cat) := by
    rw [FS.read_write_ne _ _ _ _ (fun hh => hpathne hh.symm), FS.read_mkdir]
  refine ⟨rfl, FS.read_write_self _ _ _, hmeta, ?_⟩
  rw [load_metadata_eq, load_metadata_eq]
  have : ((fs.mkdir (cfg.destination ++ "/" ++ cat)).write
      (archivePathOf cfg.destination cat ts) w).read
        ((cfg.destination ++ "/" ++ cat) ++ "/metadata.txt") =
      fs.read ((cfg.destination ++ "/" ++ cat) ++ "/metadata.txt") := hmeta
  rw [this]

/-- Witness for the amended C6 at a concrete failing build. -/
theorem backup_failure_behaviour_witness :
    (backup ⟨["/a"], "/w", ⟨0, 3, 0, 0⟩⟩ "20270505-050505" (BuildOutcome.failure "xy" "boom")
        ⟨[], []⟩).2 = Except.error "boom" :=
  (backup_failure_behaviour ⟨["/a"], "/w", ⟨0, 3, 0, 0⟩⟩ "20270505-050505" "xy" "boom"
    ⟨[], []⟩ "weekly" (by rfl)).1

/-- Counterexample to C7: with a configuration whose only source
directory does not exist in the filesystem, `backup` performs no
pre-check — the destination archive file is created (here, the empty
partial file the build left behind) and the error surfaced is the
propagated build failure, not a `SourceUnavailableError` raised before
any bytes were written. -/
theorem backup_no_source_check :
    FS.isdir ⟨[], []⟩ "/missing" = false ∧
    (backup ⟨["/missing"], "/dst2", ⟨1, 0, 0, 0⟩⟩ "20260101-120000"
        (BuildOutcome.failure "" "[Errno 2] No such file or directory: /missing")
        ⟨[], []⟩).1.read (archivePathOf "/dst2" "daily" "20260101-120000") = some "" ∧
    (backup ⟨["/missing"], "/dst2", ⟨1, 0, 0, 0⟩⟩ "20260101-120000"
        (BuildOutcome.failure "" "[Errno 2] No such file or directory: /missing")
        ⟨[], []⟩).2 =
      Except.error "[Errno 2] No such file or directory: /missing" := by
  refine ⟨by decide, ?_, ?_⟩
  · rw [backup_failure_eq ⟨["/missing"], "/dst2", ⟨1, 0, 0, 0⟩⟩ "20260101-120000" ""
      "[Errno 2] No such file or directory: /missing" ⟨[], []⟩ "daily" (by rfl)]
    exact FS.read_write_self _ _ _
  · rw [backup_failure_eq ⟨["/missing"], "/dst2", ⟨1, 0, 0, 0⟩⟩ "20260101-120000" ""
      "[Errno 2] No such file or directory: /missing" ⟨[], []⟩ "daily" (by rfl)]

/-- C7 amended: `backup` checks no source directory at all — whatever
the configured directory list, the destination archive file is created
and written before the build step can fail, and a failing build's
error is surfaced unchanged after the destination file already
exists. -/
theorem backup_writes_destination_before_failure (dirs : List String) (dest : String)
    (ret : RetentionPolicy) (ts w e : String) (fs : FS) (cat : String)
    (hcat : determine_backup_category ret = Except.ok cat) :
    (backup ⟨dirs, dest, ret⟩ ts (BuildOutcome.failure w e) fs).1.read
      (archivePathOf dest cat ts) = some w ∧
    (backup ⟨dirs, dest, ret⟩ ts (BuildOutcome.failure w e) fs).2 = Except.error e := by
  rw [backup_failure_eq ⟨dirs, dest, ret⟩ ts w e fs cat hcat]
  exact ⟨FS.read_write_self _ _ _, rfl⟩

/-- Witness for the amended C7 at a concrete unavailable source. -/
theorem backup_writes_destination_before_failure_witness :
    (backup ⟨["/gone"], "/w2", ⟨2, 0, 0, 0⟩⟩ "20280808-080808"
        (BuildOutcome.failure "zz" "FileNotFoundError") ⟨[], []⟩).1.read
      (archivePathOf "/w2" "daily" "20280808-080808") = some "zz" :=
  (backup_writes_destination_before_failure ["/gone"] "/w2" ⟨2, 0, 0, 0⟩ "20280808-080808"
    "zz" "FileNotFoundError" ⟨[], []⟩ "daily" (by rfl)).1

/-! ## Listing (C8, C10) -/

/-- Destructuring of membership in the `list_backups` output: every
printed pair comes from an existing tier directory, is a regular file
on disk, appears in that tier's ledger, and is not the ledger file. -/
theorem mem_list_backups (base : String) (fs : FS) (cat name : String)
    (h : (cat, name) ∈ list_backups base fs) :
    cat ∈ backup_categories ∧
    fs.isdir (base ++ "/" ++ cat) = true ∧
    fs.isfile ((base ++ "/" ++ cat) ++ "/" ++ name) = true ∧
    name ∈ load_metadata fs (base ++ "/" ++ cat) ∧
    name ≠ "metadata.txt" := by
  unfold list_backups at h
  rw [List.mem_flatMap] at h
  obtain ⟨cat', hcat', hmem⟩ := h
  by_cases hdir : fs.isdir (base ++ "/" ++ cat')
  · rw [if_pos hdir] at hmem
    rw [List.mem_filterMap] at hmem
    obtain ⟨fn, hfn, hg⟩ := hmem
    by_cases hcond : fs.isfile ((base ++ "/" ++ cat') ++ "/" ++ fn) ∧
        fn ∈ load_metadata fs (base ++ "/" ++ cat') ∧ fn ≠ "metadata.txt"
    · rw [if_pos hcond] at hg
      have hc : cat' = cat ∧ fn = name := by
        have := Option.some.inj hg
        exact ⟨congrArg Prod.fst this, congrArg Prod.snd this⟩
      obtain ⟨rfl, rfl⟩ := hc
      exact ⟨hcat', hdir, hcond.1, hcond.2.1, hcond.2.2⟩
    · rw [if_neg hcond] at hg
      exact absurd hg (by simp)
  · rw [if_neg hdir] at hmem
    exact absurd hmem (List.not_mem_nil _)

/-- C8: every filename printed by the listing operation names a
regular file that exists on disk in a tier directory and appears in
that tier's metadata ledger; a file with no ledger entry is never
listed. -/
theorem list_backups_only_valid (base : String) (fs : FS) (cat name : String)
    (h : (cat, name) ∈ list_backups base fs) :
    cat ∈ backup_categories ∧
    fs.isfile ((base ++ "/" ++ cat) ++ "/" ++ name) = true ∧
    name ∈ load_metadata fs (base ++ "/" ++ cat) := by
  have hm := mem_list_backups base fs cat name h
  exact ⟨hm.1, hm.2.2.1, hm.2.2.2.1⟩

theorem fsW_load : load_metadata fsW ("/w3" ++ "/" ++ "daily") = ["b.tar.zst"] := by
  apply load_single_token fsW ("/w3" ++ "/" ++ "daily") ("b.tar.zst" : String).data
    (by decide) (by decide)
  decide

theorem fsW_mem : ("daily", "b.tar.zst") ∈ list_backups "/w3" fsW := by
  unfold list_backups
  rw [List.mem_flatMap]
  refine ⟨"daily", by decide, ?_⟩
  rw [if_pos (by decide)]
  rw [List.mem_filterMap]
  refine ⟨"b.tar.zst", ?_, ?_⟩
  · rw [List.mem_mergeSort]
    decide
  · rw [if_pos ⟨by decide, by rw [fsW_load]; decide, by decide⟩]

/-- Witness for C8 at the concrete store `fsW`. -/
theorem list_backups_only_valid_witness :
    fsW.isfile (("/w3" ++ "/" ++ "daily") ++ "/" ++ "b.tar.zst") = true ∧
    "b.tar.zst" ∈ load_metadata fsW ("/w3" ++ "/" ++ "daily") :=
  ⟨(list_backups_only_valid "/w3" fsW "daily" "b.tar.zst" fsW_mem).2.1,
   (list_backups_only_valid "/w3" fsW "daily" "b.tar.zst" fsW_mem).2.2⟩

/-- C10: the listing never prints the ledger file's own name, even
when a ledger line lists `metadata.txt` and such a file exists. -/
theorem list_backups_excludes_ledger_file (base : String) (fs : FS) :
    (list_backups base fs).all (fun e => e.2 != "metadata.txt") = true := by
  rw [List.all_eq_true]
  intro e he
  have he2 : (e.1, e.2) ∈ list_backups base fs := by
    rw [Prod.mk.eta]
    exact he
  have hm := mem_list_backups base fs e.1 e.2 he2
  simp [hm.2.2.2.2]

/-! ## Archive naming (C9) -/

theorem digitChar_mod10_isDigit (n : Nat) : (Nat.digitChar (n % 10)).isDigit = true := by
  have hall : ∀ k, k < 10 → (Nat.digitChar k).isDigit = true := by decide
  exact hall _ (Nat.mod_lt _ (by norm_num))

theorem digitChar_inj_lt10 : ∀ a < 10, ∀ b < 10,
    Nat.digitChar a = Nat.digitChar b → a = b := by decide

/-- `strftime("%Y%m%d-%H%M%S")` is injective on in-range instants:
the produced name embeds the timestamp at second resolution. -/
theorem strftimeYmdHMS_inj (t t' : Timestamp) (h : t.inRange) (h' : t'.inRange)
    (he : strftimeYmdHMS t' = strftimeYmdHMS t) : t' = t := by
  obtain ⟨y, mo, d, hh, mi, se⟩ := t
  obtain ⟨y', mo', d', hh', mi', se'⟩ := t'
  obtain ⟨hyr, hmor, hdr, hhr, hmir, hsr⟩ := h
  obtain ⟨hyr', hmor', hdr', hhr', hmir', hsr'⟩ := h'
  dsimp only at hyr hmor hdr hhr hmir hsr hyr' hmor' hdr' hhr' hmir' hsr'
  have hd : pad4 y' ++ pad2 mo' ++ pad2 d' ++ ['-'] ++
      pad2 hh' ++ pad2 mi' ++ pad2 se' =
      pad4 y ++ pad2 mo ++ pad2 d ++ ['-'] ++
      pad2 hh ++ pad2 mi ++ pad2 se := congrArg String.data he
  simp only [pad4, pad2, List.cons_append, List.nil_append, List.append_assoc,
    List.cons.injEq, and_true, true_and] at hd
  obtain ⟨hy3, hy2, hy1, hy0, hmo1, hmo0, hd1, hd0, hh1, hh0, hmi1, hmi0, hs1, hs0⟩ := hd
  have hlt : ∀ n : Nat, n % 10 < 10 := fun n => Nat.mod_lt _ (by norm_num)
  have ey3 := digitChar_inj_lt10 _ (hlt _) _ (hlt _) hy3
  have ey2 := digitChar_inj_lt10 _ (hlt _) _ (hlt _) hy2
  have ey1 := digitChar_inj_lt10 _ (hlt _) _ (hlt _) hy1
  have ey0 := digitChar_inj_lt10 _ (hlt _) _ (hlt _) hy0
  have emo1 := digitChar_inj_lt10 _ (hlt _) _ (hlt _) hmo1
  have emo0 := digitChar_inj_lt10 _ (hlt _) _ (hlt _) hmo0
  have ed1 := digitChar_inj_lt10 _ (hlt _) _ (hlt _) hd1
  have ed0 := digitChar_inj_lt10 _ (hlt _) _ (hlt _) hd0
  have eh1 := digitChar_inj_lt10 _ (hlt _) _ (hlt _) hh1
  have eh0 := digitChar_inj_lt10 _ (hlt _) _ (hlt _) hh0
  have emi1 := digitChar_inj_lt10 _ (hlt _) _ (hlt _) hmi1
  have emi0 := digitChar_inj_lt10 _ (hlt _) _ (hlt _) hmi0
  have es1 := digitChar_inj_lt10 _ (hlt _) _ (hlt _) hs1
  have es0 := digitChar_inj_lt10 _ (hlt _) _ (hlt _) hs0
  simp only [Timestamp.mk.injEq]
  refine ⟨by omega, by omega, by omega, by omega, by omega, by omega⟩

/-- C9: every archive created by `backup` is named
`backup-<YYYYMMDD-HHMMSS>.tar.zst`: the name produced from an in-range
instant passes the format checker, and the embedded timestamp is
recoverable (the naming is injective at second resolution). -/
theorem backup_archive_naming (t : Timestamp) (h : t.inRange) :
    isBackupArchiveName (archiveName (strftimeYmdHMS t)) = true ∧
    (∀ t' : Timestamp, t'.inRange →
      archiveName (strftimeYmdHMS t') = archiveName (strftimeYmdHMS t) → t' = t) := by
  constructor
  · unfold isBackupArchiveName archiveName strftimeYmdHMS pad4 pad2
    simp [digitChar_mod10_isDigit, String.data_append]
  · intro t' h' heq
    apply strftimeYmdHMS_inj t t' h h'
    have hd := congrArg String.data heq
    unfold archiveName at hd
    simp only [String.data_append] at hd
    apply String.ext
    have h1 := List.append_cancel_right hd
    exact List.append_cancel_left h1

/-- Witness for C9 at a concrete instant. -/
theorem backup_archive_naming_witness :
    isBackupArchiveName (archiveName (strftimeYmdHMS ⟨2026, 10, 12, 23, 59, 7⟩)) = true :=
  (backup_archive_naming ⟨2026, 10, 12, 23, 59, 7⟩ (by decide)).1

end Yabs
